import Mathlib

/-!
Verification of `packages/core/src/common/resource.ts`: the resource
contract, the save orchestrator (`Resource.save`, `trySaveContentChanges`,
`shouldSaveContent`), the resolver chain (`DefaultResourceProvider.get`),
and the in-memory backing store (`MutableResource`, `InMemoryResources`).

The TypeScript is shallowly embedded: promises that resolve or reject
become `Except` values, mutable object state becomes explicit state
passing, and the JS `Map` backing `InMemoryResources` becomes an
association list keyed by the serialized URI.  Where a claim speaks about
which operations are invoked (call counts, short-circuiting), the
embedding additionally returns an event trace listing the invocations the
source code performs.
-/

set_option autoImplicit false

namespace TheiaResource

/-- Model of the external `URI` type: the core only uses `uri.toString()`
as a registry key and in error messages, so a URI is modelled by its
serialized form. -/
structure URI where
  str : String
deriving DecidableEq, Repr

def URI.toString (u : URI) : String := u.str

/-- Model of `ResourceVersion` (an opaque version token). -/
structure ResourceVersion where
  tag : Nat
deriving DecidableEq, Repr

/-- Embedding of `ResourceSaveOptions` from the source: all fields optional. -/
structure ResourceSaveOptions where
  encoding : Option String := none
  overwriteEncoding : Option String := none
  version : Option ResourceVersion := none
deriving DecidableEq, Repr

/-- Model of the external `TextDocumentContentChangeEvent`: the core never
interprets a change, it only measures `JSON.stringify(change).length`, so a
change is modelled by its JSON serialization. -/
structure TextDocumentContentChangeEvent where
  json : String
deriving DecidableEq, Repr

/-- Embedding of `Resource.SaveContext` from the source. -/
structure SaveContext where
  content : String
  changes : Option (List TextDocumentContentChangeEvent) := none
  options : Option ResourceSaveOptions := none
deriving DecidableEq, Repr

namespace Resource

/-- The accumulation loop of `Resource.shouldSaveContent`: walks the
changes adding `JSON.stringify(change).length`, returning `true` as soon
as the running sum strictly exceeds `contentLength`, and finally comparing
the total against `contentLength` with the same strict comparison. -/
def shouldSaveContentLoop (contentLength : Nat) :
    List TextDocumentContentChangeEvent → Nat → Bool
  | [], acc => decide (acc > contentLength)
  | c :: rest, acc =>
    let acc' := acc + c.json.length
    if acc' > contentLength then true
    else shouldSaveContentLoop contentLength rest acc'

/-- Embedding of `Resource.shouldSaveContent`: `true` means the full-content save is
preferred; `changes` absent always prefers the full save. -/
def shouldSaveContent (ctx : SaveContext) : Bool :=
  match ctx.changes with
  | none => true
  | some changes => shouldSaveContentLoop ctx.content.length changes 0

/-- Total serialized footprint of a change list, the quantity
`shouldSaveContent` accumulates. -/
def totalChangesLength (changes : List TextDocumentContentChangeEvent) : Nat :=
  (changes.map (fun c => c.json.length)).sum

end Resource

/-- Model of the external `CancellationToken`: the core only queries
`isCancellationRequested`. -/
structure CancellationToken where
  isCancellationRequested : Bool
deriving DecidableEq, Repr

/-- The guard `token && token.isCancellationRequested` of `Resource.save`
for the optional token argument. -/
def isCancelled : Option CancellationToken → Bool
  | none => false
  | some token => token.isCancellationRequested

/-- Error kinds a save operation may reject with: the two structured
kinds `ResourceError.NotFound` (-40000) and `ResourceError.OutOfSync`
(-40001), and `Other` standing for any other thrown error. -/
inductive ResourceErrorKind
  | NotFound
  | OutOfSync
  | Other
deriving DecidableEq, Repr

/-- The save-capability surface of the `Resource` interface, over an
abstract backing-store state `σ`.  Each optional capability is a function
from the current state to either an updated state (the promise resolved)
or an error kind (the promise rejected). -/
structure Resource (σ : Type) where
  saveContents : Option
    (σ → String → Option ResourceSaveOptions → Except ResourceErrorKind σ)
  saveContentChanges : Option
    (σ → List TextDocumentContentChangeEvent → Option ResourceSaveOptions →
      Except ResourceErrorKind σ)

/-- Trace events recording which save operations the orchestrator
invokes on the underlying resource. -/
inductive SaveEvent
  | incrementalSave
  | fullSave
deriving DecidableEq, Repr

/-- Number of `resource.saveContents` invocations recorded in a trace. -/
def countFullSaves (events : List SaveEvent) : Nat :=
  events.countP (fun e => decide (e = SaveEvent.fullSave))

namespace Resource

/-- Embedding of `Resource.trySaveContentChanges`: returns the unchanged state and
`false` when `context.changes` is absent, the resource lacks the
incremental capability, or `shouldSaveContent` prefers a full save;
otherwise invokes `saveContentChanges`, reporting `true` on success and
swallowing any thrown error (returning `false`).  The second component
traces the invocation. -/
def trySaveContentChanges {σ : Type} (resource : Resource σ)
    (context : SaveContext) (s : σ) : (σ × Bool) × List SaveEvent :=
  match context.changes, resource.saveContentChanges with
  | none, _ => ((s, false), [])
  | some _, none => ((s, false), [])
  | some changes, some applyChanges =>
    if shouldSaveContent context then ((s, false), [])
    else
      match applyChanges s changes context.options with
      | .ok s' => ((s', true), [.incrementalSave])
      | .error _ => ((s, false), [.incrementalSave])

/-- Embedding of `Resource.save`: no-op when the resource lacks `saveContents`; else
try the incremental save, then, unless cancellation is requested, fall
back to the full `saveContents` whose outcome becomes the result. -/
def save {σ : Type} (resource : Resource σ) (context : SaveContext)
    (token : Option CancellationToken) (s : σ) :
    Except ResourceErrorKind σ × List SaveEvent :=
  match resource.saveContents with
  | none => (.ok s, [])
  | some saveFull =>
    match trySaveContentChanges resource context s with
    | ((s', true), events) => (.ok s', events)
    | ((s', false), events) =>
      if isCancelled token then (.ok s', events)
      else
        match saveFull s' context.content context.options with
        | .ok s'' => (.ok s'', events ++ [.fullSave])
        | .error e => (.error e, events ++ [.fullSave])

end Resource

/-- Model of a `ResourceResolver` contribution over an abstract resource
type `ρ`: `resolve` either produces a resource or rejects, with an opaque
error message. -/
structure ResourceResolver (ρ : Type) where
  resolve : URI → Except String ρ

/-- The error `DefaultResourceProvider.get` rejects with after exhausting
all resolvers: a generic `Error`, distinct from the structured
`ResourceError` kinds. -/
inductive ProviderError
  | unregistered (message : String)
deriving DecidableEq, Repr

namespace DefaultResourceProvider

/-- The resolver loop of `DefaultResourceProvider.get`, starting at
resolver index `i`; the trace records the indices of the resolvers whose
`resolve` is invoked, in order. -/
def getFrom {ρ : Type} (uri : URI) :
    List (ResourceResolver ρ) → Nat → Except ProviderError ρ × List Nat
  | [], _ =>
    (.error (.unregistered ("A resource provider for " ++ uri.toString
        ++ " is not registered.")), [])
  | resolver :: rest, i =>
    match resolver.resolve uri with
    | .ok resource => (.ok resource, [i])
    | .error _ =>
      let next := getFrom uri rest (i + 1)
      (next.1, i :: next.2)

/-- Embedding of `DefaultResourceProvider.get`: try each registered resolver in
registration order, return the first success, swallow individual
failures, and reject with the generic not-registered error when every
resolver fails. -/
def get {ρ : Type} (resolvers : List (ResourceResolver ρ)) (uri : URI) :
    Except ProviderError ρ × List Nat :=
  getFrom uri resolvers 0

end DefaultResourceProvider

/-- The in-memory `MutableResource`: its URI, its current contents, and
the registry key captured by its disposal closure
(the source passes the closure deleting `resourceUri` to the
constructor). -/
structure MutableResource where
  uri : URI
  contents : String
  disposeKey : String
deriving DecidableEq, Repr

/-- Operation `Map.get` of the JS registry map, an association list keyed by the
serialized URI whose values are heap indices. -/
def mapGet (m : List (String × Nat)) (key : String) : Option Nat :=
  (m.find? (fun entry => entry.1 == key)).map (fun entry => entry.2)

/-- Operation `Map.has`. -/
def mapHas (m : List (String × Nat)) (key : String) : Bool :=
  (mapGet m key).isSome

/-- Operation `Map.set`: replaces the value under an existing key, else appends. -/
def mapSet (m : List (String × Nat)) (key : String) (value : Nat) :
    List (String × Nat) :=
  if mapHas m key then
    m.map (fun entry => if entry.1 == key then (key, value) else entry)
  else m ++ [(key, value)]

/-- Operation `Map.delete`. -/
def mapDelete (m : List (String × Nat)) (key : String) :
    List (String × Nat) :=
  m.filter (fun entry => entry.1 != key)

/-- The state of an `InMemoryResources` registry together with the heap
of every `MutableResource` it ever created: `resources` is the registry
map; `heap` only grows, and a heap index plays the role of a JS object
reference, so reference equality is equality of indices. -/
structure InMemoryResources where
  resources : List (String × Nat) := []
  heap : List MutableResource := []
deriving DecidableEq, Repr

namespace InMemoryResources

/-- Embedding of `InMemoryResources.add`: throws when the serialized URI is already
registered; otherwise creates a fresh `MutableResource` whose dispose
closure deletes its key, registers it, and returns its reference. -/
def add (st : InMemoryResources) (uri : URI) (contents : String) :
    Except String (Nat × InMemoryResources) :=
  let resourceUri := uri.toString
  if mapHas st.resources resourceUri then
    Except.error ("Cannot add already existing in-memory resource "
      ++ resourceUri)
  else
    let rid := st.heap.length
    let resource : MutableResource := ⟨uri, contents, resourceUri⟩
    Except.ok (rid,
      { resources := mapSet st.resources resourceUri rid,
        heap := st.heap ++ [resource] })

/-- The registry state `add` produces on the fresh-identifier path. -/
def afterAdd (st : InMemoryResources) (uri : URI) (contents : String) :
    InMemoryResources :=
  { resources := mapSet st.resources uri.toString st.heap.length,
    heap := st.heap ++ [⟨uri, contents, uri.toString⟩] }

/-- Embedding of `MutableResource.readContents`: resolves with the current contents of
the referenced resource; `none` only for a dangling reference, which the
source cannot produce. -/
def readContents (st : InMemoryResources) (rid : Nat) : Option String :=
  (st.heap.get? rid).map (fun r => r.contents)

/-- Pointwise update of heap cell `rid` with new contents. -/
def setContents : List MutableResource → Nat → String → List MutableResource
  | [], _, _ => []
  | r :: rest, 0, contents => { r with contents := contents } :: rest
  | r :: rest, n + 1, contents => r :: setContents rest n contents

/-- Embedding of `MutableResource.saveContents`: replaces the referenced resource's
contents (the fired change event carries no payload and no claim
concerns it, so the emitter is not modelled). -/
def saveContents (st : InMemoryResources) (rid : Nat) (contents : String) :
    InMemoryResources :=
  { st with heap := setContents st.heap rid contents }

/-- Embedding of `MutableResource.dispose` of the resource referenced by `rid`: runs
the captured closure, deleting the resource's key from the registry map;
the object itself (the heap cell) survives. -/
def dispose (st : InMemoryResources) (rid : Nat) : InMemoryResources :=
  match st.heap.get? rid with
  | none => st
  | some r => { st with resources := mapDelete st.resources r.disposeKey }

/-- Embedding of `InMemoryResources.resolve`: throws when no entry exists for the
serialized URI; otherwise returns the registered reference — the same
reference `add` returned, no new instance. -/
def resolve (st : InMemoryResources) (uri : URI) : Except String Nat :=
  let uriString := uri.toString
  match mapGet st.resources uriString with
  | none =>
    Except.error ("In memory " ++ uriString ++ " resource does not exist.")
  | some rid => Except.ok rid

/-- Embedding of `InMemoryResources.update`: throws when no entry exists; otherwise
invokes the registered resource's `saveContents` and returns it. -/
def update (st : InMemoryResources) (uri : URI) (contents : String) :
    Except String (Nat × InMemoryResources) :=
  match mapGet st.resources uri.toString with
  | none =>
    Except.error ("Cannot update non-existed in-memory resource "
      ++ uri.toString)
  | some rid => Except.ok (rid, saveContents st rid contents)

end InMemoryResources

/-- A client-visible operation against an `InMemoryResources` registry
and the resources it has produced.  A thrown error leaves the state
unchanged, faithfully to the source, which throws before mutating. -/
inductive RegistryOp
  | addOp (uri : URI) (contents : String)
  | updateOp (uri : URI) (contents : String)
  | saveOp (rid : Nat) (contents : String)
  | disposeOp (rid : Nat)
deriving DecidableEq, Repr

/-- Effect of one registry operation on the state. -/
def applyOp (st : InMemoryResources) : RegistryOp → InMemoryResources
  | .addOp uri contents =>
    match InMemoryResources.add st uri contents with
    | .ok result => result.2
    | .error _ => st
  | .updateOp uri contents =>
    match InMemoryResources.update st uri contents with
    | .ok result => result.2
    | .error _ => st
  | .saveOp rid contents => InMemoryResources.saveContents st rid contents
  | .disposeOp rid => InMemoryResources.dispose st rid

/-- Effect of a sequence of registry operations. -/
def applyOps (st : InMemoryResources) : List RegistryOp → InMemoryResources
  | [] => st
  | op :: ops => applyOps (applyOp st op) ops

end TheiaResource

namespace TheiaResource

theorem totalChangesLength_cons (c : TextDocumentContentChangeEvent)
    (rest : List TextDocumentContentChangeEvent) :
    Resource.totalChangesLength (c :: rest)
      = c.json.length + Resource.totalChangesLength rest := by
  simp [Resource.totalChangesLength]

theorem shouldSaveContentLoop_eq (contentLength : Nat)
    (changes : List TextDocumentContentChangeEvent) (acc : Nat) :
    Resource.shouldSaveContentLoop contentLength changes acc
      = decide (acc + Resource.totalChangesLength changes > contentLength) := by
  induction changes generalizing acc with
  | nil => simp [Resource.shouldSaveContentLoop, Resource.totalChangesLength]
  | cons c rest ih =>
    simp only [Resource.shouldSaveContentLoop]
    by_cases h : acc + c.json.length > contentLength
    · have hgt : acc + Resource.totalChangesLength (c :: rest) > contentLength := by
        rw [totalChangesLength_cons]
        omega
      simp [h, hgt]
    · simp only [h, if_false, ih]
      have hassoc : acc + c.json.length + Resource.totalChangesLength rest
          = acc + Resource.totalChangesLength (c :: rest) := by
        rw [totalChangesLength_cons]
        omega
      rw [hassoc]

/-- C1 (amended): with `changes` present, `shouldSaveContent` returns
`true` exactly when the total serialized length of the changes is
strictly greater than `content.length`; in particular it returns `false`
when the total equals `content.length`, both in the short-circuit check
and in the final comparison. -/
theorem shouldSaveContent_strict (ctx : SaveContext)
    (changes : List TextDocumentContentChangeEvent)
    (h : ctx.changes = some changes) :
    Resource.shouldSaveContent ctx
      = decide (Resource.totalChangesLength changes > ctx.content.length) := by
  simp [Resource.shouldSaveContent, h, shouldSaveContentLoop_eq]

/-- C1 witness: a concrete save context with a single change of serialized
length 1 against content of length 2 prefers the incremental save. -/
theorem shouldSaveContent_strict_witness :
    Resource.shouldSaveContent
        ⟨"ab", some [⟨"x"⟩], none⟩
      = decide (Resource.totalChangesLength [⟨"x"⟩] > ("ab" : String).length) :=
  shouldSaveContent_strict ⟨"ab", some [⟨"x"⟩], none⟩ [⟨"x"⟩] rfl

/-- C1 counterexample: when the total serialized change length exactly
equals `content.length` (here both are 2), the claimed behaviour is
`true` (sum greater or equal to the content length), but the code returns
`false`. -/
theorem shouldSaveContent_eq_boundary :
    Resource.totalChangesLength [(⟨"xy"⟩ : TextDocumentContentChangeEvent)]
        = ("ab" : String).length
      ∧ Resource.shouldSaveContent ⟨"ab", some [⟨"xy"⟩], none⟩ = false := by
  constructor
  · decide
  · decide

/-- C9: an empty-but-present change list always yields `false` (prefer
incremental save) regardless of the content, whereas an absent change
list always yields `true`. -/
theorem shouldSaveContent_empty_changes (content : String)
    (options : Option ResourceSaveOptions) :
    Resource.shouldSaveContent ⟨content, some [], options⟩ = false
      ∧ Resource.shouldSaveContent ⟨content, none, options⟩ = true := by
  constructor
  · simp [Resource.shouldSaveContent, Resource.shouldSaveContentLoop]
  · rfl

theorem trySaveContentChanges_spec {σ : Type} (resource : Resource σ)
    (context : SaveContext) (s : σ) :
    (((Resource.trySaveContentChanges resource context s).1).2 = false →
        ((Resource.trySaveContentChanges resource context s).1).1 = s)
      ∧ countFullSaves (Resource.trySaveContentChanges resource context s).2 = 0 := by
  unfold Resource.trySaveContentChanges
  cases hc : context.changes with
  | none => simp [countFullSaves]
  | some changes =>
    cases hs : resource.saveContentChanges with
    | none => simp [countFullSaves]
    | some applyChanges =>
      by_cases hheur : Resource.shouldSaveContent context
      · simp [hheur, countFullSaves]
      · cases happ : applyChanges s changes context.options with
        | ok s' => simp [hheur, happ, countFullSaves]
        | error e => simp [hheur, happ, countFullSaves]

/-- C3: a resource without the `saveContents` capability makes `save` a
silent no-op: the state is unchanged, no error is raised and no save
operation is invoked. -/
theorem save_without_saveContents {σ : Type} (resource : Resource σ)
    (context : SaveContext) (token : Option CancellationToken) (s : σ)
    (h : resource.saveContents = none) :
    Resource.save resource context token s = (Except.ok s, []) := by
  unfold Resource.save
  rw [h]

/-- C3 witness: a read-only resource with the incremental capability but
no full-save capability, a context with changes, and save is a no-op. -/
theorem save_without_saveContents_witness :
    Resource.save
        (⟨none, some (fun s _ _ => Except.ok s)⟩ : Resource Nat)
        ⟨"abc", some [⟨"x"⟩], none⟩ none 0
      = (Except.ok 0, []) :=
  save_without_saveContents
    (⟨none, some (fun s _ _ => Except.ok s)⟩ : Resource Nat)
    ⟨"abc", some [⟨"x"⟩], none⟩ none 0 rfl

/-- C2 (amended): when the resource supports both capabilities, the
context is eligible for incremental save, the incremental attempt fails
with `NotFound` or `OutOfSync`, and cancellation has not been requested,
`save` performs exactly one subsequent full-save attempt with
`context.content` and `context.options`, and its outcome is the
orchestrator's outcome. -/
theorem save_incremental_failure_falls_back {σ : Type} (resource : Resource σ)
    (context : SaveContext) (token : Option CancellationToken) (s : σ)
    (saveFull : σ → String → Option ResourceSaveOptions →
      Except ResourceErrorKind σ)
    (applyChanges : σ → List TextDocumentContentChangeEvent →
      Option ResourceSaveOptions → Except ResourceErrorKind σ)
    (changes : List TextDocumentContentChangeEvent) (e : ResourceErrorKind)
    (hfull : resource.saveContents = some saveFull)
    (hinc : resource.saveContentChanges = some applyChanges)
    (hchanges : context.changes = some changes)
    (hheur : Resource.shouldSaveContent context = false)
    (herr : applyChanges s changes context.options = Except.error e)
    (hkind : e = ResourceErrorKind.NotFound ∨ e = ResourceErrorKind.OutOfSync)
    (hcancel : isCancelled token = false) :
    Resource.save resource context token s
      = (saveFull s context.content context.options,
         [SaveEvent.incrementalSave, SaveEvent.fullSave]) := by
  have htr : Resource.trySaveContentChanges resource context s
      = ((s, false), [SaveEvent.incrementalSave]) := by
    unfold Resource.trySaveContentChanges
    simp [hchanges, hinc, hheur, herr]
  unfold Resource.save
  rw [hfull, htr]
  simp only [hcancel, if_false]
  cases hres : saveFull s context.content context.options with
  | ok s' => simp [hres]
  | error e' => simp [hres]

/-- C2 witness: a concrete resource whose incremental save rejects with
`NotFound` and whose full save succeeds; `save` falls back to exactly
one full save and returns its outcome. -/
theorem save_incremental_failure_falls_back_witness :
    Resource.save
        (⟨some (fun s c _ => Except.ok (s + c.length)),
          some (fun _ _ _ => Except.error ResourceErrorKind.NotFound)⟩ :
          Resource Nat)
        ⟨"abc", some [⟨"x"⟩], none⟩ none 0
      = (Except.ok 3, [SaveEvent.incrementalSave, SaveEvent.fullSave]) := by
  have h := save_incremental_failure_falls_back
    (⟨some (fun s c _ => Except.ok (s + c.length)),
      some (fun _ _ _ => Except.error ResourceErrorKind.NotFound)⟩ :
      Resource Nat)
    ⟨"abc", some [⟨"x"⟩], none⟩ none 0
    (fun s c _ => Except.ok (s + c.length))
    (fun _ _ _ => Except.error ResourceErrorKind.NotFound)
    [⟨"x"⟩] ResourceErrorKind.NotFound
    rfl rfl rfl (by decide) rfl (Or.inl rfl) rfl
  rw [h]
  rfl

/-- C2 counterexample: at a concrete input satisfying every premise of
the claim (both capabilities, eligible context, incremental rejects with
`NotFound`) but with a cancellation-requested token, `save` performs
zero full-save attempts and returns normally, while the full save at
that point would have rejected with `OutOfSync` — so the claimed
unconditional fallback does not happen. -/
theorem save_incremental_failure_cancelled_counterexample :
    Resource.shouldSaveContent ⟨"abc", some [⟨"x"⟩], none⟩ = false
      ∧ Resource.save
          (⟨some (fun _ _ _ => Except.error ResourceErrorKind.OutOfSync),
            some (fun _ _ _ => Except.error ResourceErrorKind.NotFound)⟩ :
            Resource Nat)
          ⟨"abc", some [⟨"x"⟩], none⟩ (some ⟨true⟩) 0
        = (Except.ok 0, [SaveEvent.incrementalSave])
      ∧ countFullSaves [SaveEvent.incrementalSave] = 0
      ∧ (Except.ok 0 : Except ResourceErrorKind Nat)
          ≠ Except.error ResourceErrorKind.OutOfSync := by
  refine ⟨by decide, rfl, by decide, by simp⟩

/-- C4: with the full-save capability present, if the incremental attempt
did not succeed and cancellation is requested before the fallback, `save`
leaves the state unchanged, raises no error, and performs no full-save
invocation. -/
theorem save_cancelled_no_full_save {σ : Type} (resource : Resource σ)
    (context : SaveContext) (token : Option CancellationToken) (s : σ)
    (hfull : resource.saveContents.isSome = true)
    (hnoinc : ((Resource.trySaveContentChanges resource context s).1).2 = false)
    (hcancel : isCancelled token = true) :
    (Resource.save resource context token s).1 = Except.ok s
      ∧ countFullSaves (Resource.save resource context token s).2 = 0 := by
  obtain ⟨saveFull, hf⟩ := Option.isSome_iff_exists.mp hfull
  have hspec := trySaveContentChanges_spec resource context s
  have hstate := hspec.1 hnoinc
  have htr : Resource.trySaveContentChanges resource context s
      = ((s, false), (Resource.trySaveContentChanges resource context s).2) := by
    have heta : Resource.trySaveContentChanges resource context s
        = (((Resource.trySaveContentChanges resource context s).1.1,
            (Resource.trySaveContentChanges resource context s).1.2),
           (Resource.trySaveContentChanges resource context s).2) := rfl
    rw [hstate, hnoinc] at heta
    exact heta
  unfold Resource.save
  rw [hf, htr]
  simp [hcancel, hspec.2]

/-- C4 witness: a cancelled token with a full-save-capable resource and
an ineligible context (no changes): the state survives and no full save
runs. -/
theorem save_cancelled_no_full_save_witness :
    (Resource.save
        (⟨some (fun s _ _ => Except.ok (s + 1)), none⟩ : Resource Nat)
        ⟨"abc", none, none⟩ (some ⟨true⟩) 7).1 = Except.ok 7
      ∧ countFullSaves
          (Resource.save
            (⟨some (fun s _ _ => Except.ok (s + 1)), none⟩ : Resource Nat)
            ⟨"abc", none, none⟩ (some ⟨true⟩) 7).2 = 0 :=
  save_cancelled_no_full_save
    (⟨some (fun s _ _ => Except.ok (s + 1)), none⟩ : Resource Nat)
    ⟨"abc", none, none⟩ (some ⟨true⟩) 7 rfl rfl rfl

theorem getFrom_all_fail {ρ : Type} (uri : URI)
    (resolvers : List (ResourceResolver ρ)) (i : Nat)
    (hfail : ∀ r ∈ resolvers, ∃ e, r.resolve uri = Except.error e) :
    DefaultResourceProvider.getFrom uri resolvers i
      = (Except.error (ProviderError.unregistered
          ("A resource provider for " ++ uri.toString
            ++ " is not registered.")),
         List.range' i resolvers.length) := by
  induction resolvers generalizing i with
  | nil => rfl
  | cons r rest ih =>
    obtain ⟨e, he⟩ := hfail r (List.mem_cons_self r rest)
    have hrest : ∀ r' ∈ rest, ∃ e', r'.resolve uri = Except.error e' :=
      fun r' hr' => hfail r' (List.mem_cons_of_mem r hr')
    simp only [DefaultResourceProvider.getFrom, he]
    rw [ih (i + 1) hrest]
    simp [List.range'_succ]

theorem getFrom_first_success {ρ : Type} (uri : URI)
    (resolvers : List (ResourceResolver ρ)) (k i : Nat)
    (resolver : ResourceResolver ρ) (resource : ρ)
    (hok : resolver.resolve uri = Except.ok resource)
    (hk : resolvers.get? k = some resolver)
    (hfail : ∀ r ∈ resolvers.take k, ∃ e, r.resolve uri = Except.error e) :
    DefaultResourceProvider.getFrom uri resolvers i
      = (Except.ok resource, List.range' i (k + 1)) := by
  revert hk hfail
  induction resolvers generalizing k i with
  | nil =>
    intro hk _
    simp at hk
  | cons r rest ih =>
    intro hk hfail
    cases k with
    | zero =>
      have hr : r = resolver := by simpa using hk
      subst hr
      simp only [DefaultResourceProvider.getFrom, hok]
      simp [List.range'_succ]
    | succ k =>
      obtain ⟨e, he⟩ := hfail r (by simp [List.take_succ_cons])
      have hrest : ∀ r' ∈ rest.take k, ∃ e', r'.resolve uri = Except.error e' := by
        intro r' hr'
        exact hfail r' (by simp [List.take_succ_cons, hr'])
      simp only [DefaultResourceProvider.getFrom, he]
      rw [ih k (i + 1) (by simpa using hk) hrest]
      simp [List.range'_succ]

/-- C5: `DefaultResourceProvider.get` returns the resource of the first
resolver (in registration order) whose `resolve` succeeds, invoking only
the resolvers up to and including it (trace `range (k+1)`), swallowing
every earlier failure; and when every resolver fails — including the
zero-resolver case — it rejects with the generic not-registered error
naming the identifier, not a `ResourceError` kind. -/
theorem get_first_success_or_unregistered {ρ : Type}
    (resolvers : List (ResourceResolver ρ)) (uri : URI) :
    (∀ k resolver resource, resolver.resolve uri = Except.ok resource →
        resolvers.get? k = some resolver →
        (∀ r ∈ resolvers.take k, ∃ e, r.resolve uri = Except.error e) →
        DefaultResourceProvider.get resolvers uri
          = (Except.ok resource, List.range (k + 1)))
      ∧ ((∀ r ∈ resolvers, ∃ e, r.resolve uri = Except.error e) →
        DefaultResourceProvider.get resolvers uri
          = (Except.error (ProviderError.unregistered
              ("A resource provider for " ++ uri.toString
                ++ " is not registered.")),
             List.range resolvers.length)) := by
  constructor
  · intro k resolver resource hok hk hfail
    unfold DefaultResourceProvider.get
    rw [getFrom_first_success uri resolvers k 0 resolver resource hok hk hfail]
    rw [List.range_eq_range']
  · intro hfail
    unfold DefaultResourceProvider.get
    rw [getFrom_all_fail uri resolvers 0 hfail]
    rw [List.range_eq_range']

/-- C5 witness: of three resolvers where exactly the second succeeds,
`get` returns the second resolver's resource having invoked only the
first two; and with zero resolvers `get` rejects with the generic
not-registered error. -/
theorem get_first_success_or_unregistered_witness :
    DefaultResourceProvider.get
        [(⟨fun _ => Except.error ("nope")⟩ : ResourceResolver String),
         ⟨fun u => Except.ok ("res:" ++ u.toString)⟩,
         ⟨fun _ => Except.error ("late")⟩] ⟨"a"⟩
      = (Except.ok ("res:a"), [0, 1])
      ∧ DefaultResourceProvider.get ([] : List (ResourceResolver String)) ⟨"b"⟩
        = (Except.error (ProviderError.unregistered
            ("A resource provider for b is not registered.")), []) := by
  constructor
  · have h := (get_first_success_or_unregistered
        [(⟨fun _ => Except.error ("nope")⟩ : ResourceResolver String),
         ⟨fun u => Except.ok ("res:" ++ u.toString)⟩,
         ⟨fun _ => Except.error ("late")⟩] ⟨"a"⟩).1
        1 ⟨fun u => Except.ok ("res:" ++ u.toString)⟩
        ("res:" ++ URI.toString ⟨"a"⟩) rfl rfl
        (by
          intro r hr
          simp only [List.take_succ_cons, List.take_zero, List.mem_singleton] at hr
          subst hr
          exact ⟨"nope", rfl⟩)
    rw [h]
    rfl
  · have h := (get_first_success_or_unregistered
        ([] : List (ResourceResolver String)) ⟨"b"⟩).2
        (by intro r hr; exact absurd hr (List.not_mem_nil r))
    rw [h]
    rfl

theorem mapHas_eq_false_iff (m : List (String × Nat)) (key : String) :
    mapHas m key = false ↔ m.find? (fun entry => entry.1 == key) = none := by
  unfold mapHas mapGet
  cases m.find? (fun entry => entry.1 == key) <;> simp

theorem find?_map_replace (m : List (String × Nat)) (key : String) (value : Nat) :
    ((m.map (fun entry => if entry.1 == key then (key, value) else entry)).find?
        (fun entry => entry.1 == key))
      = (m.find? (fun entry => entry.1 == key)).map (fun _ => (key, value)) := by
  induction m with
  | nil => rfl
  | cons e m ih =>
    cases he : (e.1 == key) with
    | true =>
      simp only [List.map_cons, List.find?, he, if_true]
      simp
    | false =>
      simp only [List.map_cons, List.find?, he, Bool.false_eq_true, if_false]
      exact ih

theorem mapGet_mapSet_self (m : List (String × Nat)) (key : String)
    (value : Nat) :
    mapGet (mapSet m key value) key = some value := by
  unfold mapSet
  cases h : mapHas m key with
  | false =>
    simp only [h, Bool.false_eq_true, if_false]
    unfold mapGet
    rw [List.find?_append, (mapHas_eq_false_iff m key).mp h]
    simp [List.find?]
  | true =>
    simp only [h, if_true]
    unfold mapGet
    rw [find?_map_replace]
    cases hf : m.find? (fun entry => entry.1 == key) with
    | none =>
      rw [← mapHas_eq_false_iff] at hf
      rw [h] at hf
      exact absurd hf (by simp)
    | some e => simp

theorem mapGet_mapDelete_self (m : List (String × Nat)) (key : String) :
    mapGet (mapDelete m key) key = none := by
  simp only [mapGet, mapDelete, Option.map_eq_none', List.find?_eq_none]
  intro x hx
  rw [List.mem_filter] at hx
  have h2 := hx.2
  simp only [bne_iff_ne, ne_eq] at h2
  simp [h2]

/-- C6: adding a fresh identifier succeeds, a subsequent `resolve` on the
same identifier returns the identical reference `add` returned (reference
equality is equality of heap indices), and its `readContents` yields the
originally supplied contents. -/
theorem add_fresh_resolve_same_reference (st : InMemoryResources) (uri : URI)
    (contents : String)
    (hfresh : mapHas st.resources uri.toString = false) :
    InMemoryResources.add st uri contents
        = Except.ok (st.heap.length, InMemoryResources.afterAdd st uri contents)
      ∧ InMemoryResources.resolve
          (InMemoryResources.afterAdd st uri contents) uri
        = Except.ok st.heap.length
      ∧ InMemoryResources.readContents
          (InMemoryResources.afterAdd st uri contents) st.heap.length
        = some contents := by
  refine ⟨?_, ?_, ?_⟩
  · unfold InMemoryResources.add InMemoryResources.afterAdd
    simp [hfresh]
  · unfold InMemoryResources.resolve InMemoryResources.afterAdd
    simp [mapGet_mapSet_self]
  · unfold InMemoryResources.readContents InMemoryResources.afterAdd
    simp [List.get?_concat_length]

/-- C6 witness: a fresh registry, `add` of identifier `mem` with contents
`hello`, then `resolve` returns the same reference and `readContents`
yields `hello`. -/
theorem add_fresh_resolve_same_reference_witness :
    InMemoryResources.add ⟨[], []⟩ ⟨"mem"⟩ ("hello")
        = Except.ok (0, InMemoryResources.afterAdd ⟨[], []⟩ ⟨"mem"⟩ ("hello"))
      ∧ InMemoryResources.resolve
          (InMemoryResources.afterAdd ⟨[], []⟩ ⟨"mem"⟩ ("hello")) ⟨"mem"⟩
        = Except.ok 0
      ∧ InMemoryResources.readContents
          (InMemoryResources.afterAdd ⟨[], []⟩ ⟨"mem"⟩ ("hello")) 0
        = some ("hello") :=
  add_fresh_resolve_same_reference ⟨[], []⟩ ⟨"mem"⟩ ("hello") rfl

/-- C7: a second `add` under an already-registered identifier throws the
already-exists error, and — since the source throws before mutating — the
registry state is unchanged, so the originally registered resource keeps
its identity and contents. -/
theorem add_existing_fails (st : InMemoryResources) (uri : URI)
    (contents : String)
    (hdup : mapHas st.resources uri.toString = true) :
    InMemoryResources.add st uri contents
        = Except.error ("Cannot add already existing in-memory resource "
            ++ uri.toString)
      ∧ applyOp st (RegistryOp.addOp uri contents) = st := by
  have h : InMemoryResources.add st uri contents
      = Except.error ("Cannot add already existing in-memory resource "
          ++ uri.toString) := by
    unfold InMemoryResources.add
    simp [hdup]
  refine ⟨h, ?_⟩
  simp only [applyOp, h]

/-- C7 witness: a registry holding `mem ↦ hello`; a second `add` of `mem`
fails with the already-exists error and leaves the state intact. -/
theorem add_existing_fails_witness :
    InMemoryResources.add ⟨[("mem", 0)], [⟨⟨"mem"⟩, "hello", "mem"⟩]⟩
        ⟨"mem"⟩ ("other")
        = Except.error ("Cannot add already existing in-memory resource "
            ++ URI.toString ⟨"mem"⟩)
      ∧ applyOp ⟨[("mem", 0)], [⟨⟨"mem"⟩, "hello", "mem"⟩]⟩
          (RegistryOp.addOp ⟨"mem"⟩ ("other"))
        = ⟨[("mem", 0)], [⟨⟨"mem"⟩, "hello", "mem"⟩]⟩ :=
  add_existing_fails ⟨[("mem", 0)], [⟨⟨"mem"⟩, "hello", "mem"⟩]⟩
    ⟨"mem"⟩ ("other") rfl

/-- C8: disposing a resource produced by `add` removes the registry entry
for its identifier, so a subsequent `resolve` of that identifier throws
the does-not-exist error. -/
theorem dispose_removes_registry_entry (st : InMemoryResources) (uri : URI)
    (contents : String) (rid : Nat) (st' : InMemoryResources)
    (hadd : InMemoryResources.add st uri contents = Except.ok (rid, st')) :
    InMemoryResources.resolve (InMemoryResources.dispose st' rid) uri
      = Except.error ("In memory " ++ uri.toString
          ++ " resource does not exist.") := by
  cases hdup : mapHas st.resources uri.toString with
  | true =>
    simp [InMemoryResources.add, hdup] at hadd
  | false =>
    simp only [InMemoryResources.add, hdup, Bool.false_eq_true, if_false,
      Except.ok.injEq, Prod.mk.injEq] at hadd
    obtain ⟨hrid, hst⟩ := hadd
    subst hst
    subst hrid
    have hg : (InMemoryResources.heap
        { resources := mapSet st.resources uri.toString st.heap.length,
          heap := st.heap ++ [⟨uri, contents, uri.toString⟩] }).get?
          st.heap.length
        = some ⟨uri, contents, uri.toString⟩ :=
      List.get?_concat_length _ _
    simp [InMemoryResources.dispose, hg, InMemoryResources.resolve,
      mapGet_mapDelete_self]

/-- C8 witness: add `mem`, dispose the returned resource, and `resolve`
of `mem` now throws the does-not-exist error. -/
theorem dispose_removes_registry_entry_witness :
    InMemoryResources.resolve
        (InMemoryResources.dispose
          ⟨[("mem", 0)], [⟨⟨"mem"⟩, "hello", "mem"⟩]⟩ 0) ⟨"mem"⟩
      = Except.error ("In memory " ++ URI.toString ⟨"mem"⟩
          ++ " resource does not exist.") :=
  dispose_removes_registry_entry ⟨[], []⟩ ⟨"mem"⟩ ("hello") 0
    ⟨[("mem", 0)], [⟨⟨"mem"⟩, "hello", "mem"⟩]⟩ rfl

theorem setContents_length (l : List MutableResource) (n : Nat)
    (contents : String) :
    (InMemoryResources.setContents l n contents).length = l.length := by
  induction l generalizing n with
  | nil => rfl
  | cons r rest ih =>
    cases n with
    | zero => rfl
    | succ n => simp [InMemoryResources.setContents, ih]

theorem setContents_get?_self (l : List MutableResource) (n : Nat)
    (contents : String) (h : n < l.length) :
    ((InMemoryResources.setContents l n contents).get? n).map
        (fun r => r.contents)
      = some contents := by
  induction l generalizing n with
  | nil => simp at h
  | cons r rest ih =>
    cases n with
    | zero => rfl
    | succ n =>
      simp only [InMemoryResources.setContents]
      exact ih n (by simpa using h)

theorem applyOp_heap_length_le (st : InMemoryResources) (op : RegistryOp) :
    st.heap.length ≤ (applyOp st op).heap.length := by
  cases op with
  | addOp uri contents =>
    simp only [applyOp]
    unfold InMemoryResources.add
    cases hdup : mapHas st.resources uri.toString with
    | true => simp [hdup]
    | false =>
      simp only [hdup, Bool.false_eq_true, if_false]
      simp
  | updateOp uri contents =>
    simp only [applyOp]
    unfold InMemoryResources.update
    cases hget : mapGet st.resources uri.toString with
    | none => simp [hget]
    | some rid =>
      simp [hget, InMemoryResources.saveContents, setContents_length]
  | saveOp rid contents =>
    simp [applyOp, InMemoryResources.saveContents, setContents_length]
  | disposeOp rid =>
    simp only [applyOp]
    unfold InMemoryResources.dispose
    cases hget : st.heap.get? rid with
    | none => simp
    | some r => simp

theorem readContents_isSome_of_lt (st : InMemoryResources) (rid : Nat)
    (h : rid < st.heap.length) :
    (InMemoryResources.readContents st rid).isSome = true := by
  unfold InMemoryResources.readContents
  cases hx : st.heap.get? rid with
  | none =>
    rw [List.get?_eq_getElem?] at hx
    have hlen := List.getElem?_eq_none_iff.mp hx
    omega
  | some r => rfl

/-- C10: `readContents` of a `MutableResource` never fails: after any
sequence of registry operations (including disposal) it still resolves,
disposing does not change what `readContents` returns, and after a
`saveContents` it returns exactly the saved contents. -/
theorem readContents_never_fails (st : InMemoryResources) (rid : Nat)
    (ops : List RegistryOp) (contents : String)
    (hrid : rid < st.heap.length) :
    (InMemoryResources.readContents (applyOps st ops) rid).isSome = true
      ∧ InMemoryResources.readContents (InMemoryResources.dispose st rid) rid
        = InMemoryResources.readContents st rid
      ∧ InMemoryResources.readContents
          (InMemoryResources.saveContents st rid contents) rid
        = some contents := by
  refine ⟨?_, ?_, ?_⟩
  · have key : ∀ (l : List RegistryOp) (s : InMemoryResources),
        rid < s.heap.length → rid < (applyOps s l).heap.length := by
      intro l
      induction l with
      | nil => intro s h; exact h
      | cons op rest ih =>
        intro s h
        exact ih (applyOp s op)
          (Nat.lt_of_lt_of_le h (applyOp_heap_length_le s op))
    exact readContents_isSome_of_lt _ _ (key ops st hrid)
  · unfold InMemoryResources.dispose
    cases hx : st.heap.get? rid with
    | none => rfl
    | some r => rfl
  · unfold InMemoryResources.readContents InMemoryResources.saveContents
    exact setContents_get?_self st.heap rid contents hrid

/-- C10 witness: one registered resource; after disposing it,
`readContents` still resolves, disposal preserved the contents, and a
direct `saveContents` is reflected. -/
theorem readContents_never_fails_witness :
    (InMemoryResources.readContents
        (applyOps ⟨[("m", 0)], [⟨⟨"m"⟩, "a", "m"⟩]⟩ [RegistryOp.disposeOp 0])
        0).isSome = true
      ∧ InMemoryResources.readContents
          (InMemoryResources.dispose ⟨[("m", 0)], [⟨⟨"m"⟩, "a", "m"⟩]⟩ 0) 0
        = InMemoryResources.readContents ⟨[("m", 0)], [⟨⟨"m"⟩, "a", "m"⟩]⟩ 0
      ∧ InMemoryResources.readContents
          (InMemoryResources.saveContents
            ⟨[("m", 0)], [⟨⟨"m"⟩, "a", "m"⟩]⟩ 0 ("z")) 0
        = some ("z") :=
  readContents_never_fails ⟨[("m", 0)], [⟨⟨"m"⟩, "a", "m"⟩]⟩ 0
    [RegistryOp.disposeOp 0] ("z") (by decide)

end TheiaResource
